import Mathlib

/-!
Verification of the faceprint template store, matcher and pose-tracking
callback logic of `tools/rsid-cli/main.cc` (RealSenseID command-line sample).

The shallow embedding models:
- `RealSenseID::Faceprints` (the fields `main.cc` uses) as `Faceprints`;
  the fixed-length `short` descriptor arrays are opaque numeric vectors,
  modelled as `List Int` and always copied whole (the `memcpy` calls in the
  source copy the entire array).
- the process-global `std::map<std::string, RealSenseID::Faceprints>
  s_user_faceprint_db` as a key-sorted association list `Store`
  (`std::map` enumerates entries in ascending key order and keeps keys
  unique; `operator[]` upserts).
- `MyEnrollServerClbk::OnResult` as `enrollOnResult`.
- `FaceprintsAuthClbk::OnResult` as `authOnResult` / `authScanGo`, with the
  vendor similarity function `FaceAuthenticator::MatchFaceprints` as an
  opaque oracle parameter.
- `MyEnrollClbk::OnProgress` (the pose tracker over
  `std::set<FacePose> _poses_required`) as `onPoseObserved`.
-/

namespace RsidCli

/-- The enrollment statuses `main.cc` mentions.  The full enum lives in the
SDK headers (not part of the sources under verification); the callbacks only
ever compare a status against `Success`, so the remaining values are
collapsed into `CameraStarted` (named in `main.cc`) and `Failure code`. -/
inductive EnrollStatus where
  | Success
  | CameraStarted
  | Failure (code : Nat)
deriving DecidableEq, Repr

/-- The authentication statuses `main.cc` mentions, collapsed like
`EnrollStatus`: the auth callback only compares against `Success`. -/
inductive AuthenticateStatus where
  | Success
  | CameraStarted
  | Forbidden
  | Failure (code : Nat)
deriving DecidableEq, Repr

/-- Model of `RealSenseID::Faceprints`: the fields read or written by `main.cc`.
Descriptors are opaque fixed-length numeric vectors; the source only ever
copies them whole (`memcpy` of the full array), so `List Int` is a faithful
model of their use here. -/
structure Faceprints where
  version : Int
  numberOfDescriptors : Int
  featuresType : Int
  origDescriptor : List Int
  avgDescriptor : List Int
deriving DecidableEq, Repr

/-- Modelled from the spec: the default-constructed `RealSenseID::Faceprints`
that `std::map::operator[]` creates on first access for an absent key.  The
header defining the defaults is not among the sources under verification;
the concrete default values are irrelevant to every claim except that the
enroll handler leaves `featuresType` at this prior value. -/
def Faceprints.defaultFp : Faceprints :=
  { version := 0, numberOfDescriptors := 0, featuresType := 0,
    origDescriptor := [], avgDescriptor := [] }

/-- The poses of the enrollment pose tracker.  The spec fixes the pose set
to `{Center, Left, Right}` with canonical order Center, Left, Right; the
tracker in `main.cc` holds exactly these three in a `std::set` ordered by
the `FacePose` enum (whose header is outside the verified sources), which
the spec documents as this canonical order. -/
inductive FacePose where
  | Center
  | Left
  | Right
deriving DecidableEq, Repr

/-- Position of a pose in the canonical order Center < Left < Right, i.e.
the `std::set<FacePose>` iteration order documented by the spec. -/
def FacePose.idx : FacePose → Nat
  | .Center => 0
  | .Left => 1
  | .Right => 2

/-- Initial `_poses_required = {FacePose::Center, FacePose::Left,
FacePose::Right}` of `MyEnrollClbk`, as the canonically sorted list. -/
def posesInit : List FacePose := [.Center, .Left, .Right]

/-- Model of `MyEnrollClbk::OnProgress(pose)`: erase `pose` from `_poses_required`;
if the set is still non-empty, emit guidance naming `*_poses_required.begin()`
(the least remaining pose in the set order), else emit nothing.  The state is
the sorted remaining-pose list; the second component is the emitted guidance
(`List.head?` is exactly "the first element if non-empty"). -/
def onPoseObserved (required : List FacePose) (pose : FacePose) :
    List FacePose × Option FacePose :=
  let r := required.erase pose
  (r, r.head?)

/-- Folding `MyEnrollClbk::OnProgress` over a whole sequence of observed
poses, starting from the initial required set. -/
def trackerRun (obs : List FacePose) : List FacePose :=
  obs.foldl (fun r p => (onPoseObserved r p).1) posesInit

/-- The template store `s_user_faceprint_db`: an association list of
`(user_id, Faceprints)`, kept in ascending key order with unique keys to
mirror `std::map<std::string, Faceprints>`. -/
abbrev Store := List (String × Faceprints)

/-- The key order of `std::map<std::string, ...>`: `std::string::operator<`
compares character by character, i.e. lexicographic order on the underlying
character sequence. -/
def keyLt (a b : String) : Prop := a.data < b.data

instance (a b : String) : Decidable (keyLt a b) :=
  inferInstanceAs (Decidable (a.data < b.data))

instance : IsTrans String keyLt := ⟨fun _ _ _ h1 h2 => lt_trans h1 h2⟩

instance : IsIrrefl String keyLt := ⟨fun a => lt_irrefl a.data⟩

/-- First-match lookup (the association-list reading of `std::map::find` /
`operator[]` on a present key). -/
def Store.lookup : Store → String → Option Faceprints
  | [], _ => none
  | (k, v) :: rest, uid => if k = uid then some v else Store.lookup rest uid

/-- Order-preserving upsert: `std::map::operator[] = value`.  Inserts at the
sorted position when the key is new, replaces the value in place when the
key exists. -/
def Store.upsert : Store → String → Faceprints → Store
  | [], uid, t => [(uid, t)]
  | (k, v) :: rest, uid, t =>
    if keyLt uid k then (uid, t) :: (k, v) :: rest
    else if uid = k then (uid, t) :: rest
    else (k, v) :: Store.upsert rest uid t

/-- The user-id sequence in enumeration order (`for (auto& iter : db)` /
the `'U'` listing both traverse the map in this order). -/
def Store.keys (s : Store) : List String := s.map Prod.fst

/-- The `std::map` representation invariant: keys strictly ascending (hence
unique). -/
def Store.Inv (s : Store) : Prop := List.Chain' (fun a b => keyLt a.1 b.1) s

instance storeInvDec : (s : Store) → Decidable (Store.Inv s)
  | [] => Decidable.isTrue List.chain'_nil
  | [p] => Decidable.isTrue (List.chain'_singleton p)
  | p :: q :: rest =>
    if h1 : keyLt p.1 q.1 then
      match storeInvDec (q :: rest) with
      | Decidable.isTrue h2 =>
        Decidable.isTrue (List.chain'_cons.mpr ⟨h1, h2⟩)
      | Decidable.isFalse h2 =>
        Decidable.isFalse (fun hc => h2 (List.chain'_cons.mp hc).2)
    else Decidable.isFalse (fun hc => h1 (List.chain'_cons.mp hc).1)

/-- Model of `s_user_faceprint_db.clear()` (menu option `'D'`). -/
def clearUsers (_s : Store) : Store := []

/-- Model of `MyEnrollServerClbk::OnResult(status, faceprints)`: on `Success`,
field-assign into `s_user_faceprint_db[_user_id]`: copy `version` and
`numberOfDescriptors` from the payload, then `memcpy` the payload's
`avgDescriptor` into BOTH the stored `avgDescriptor` and the stored
`origDescriptor` ("in Enroll we put avg vector as orig").  `operator[]`
default-constructs an absent entry first, so fields the handler does not
assign — `featuresType` — keep their prior (or default) value.  The four
assignments on `operator[]` collapse to one upsert of the final record.
On any other status the handler does nothing. -/
def enrollOnResult (store : Store) (userId : String) (status : EnrollStatus)
    (fp : Faceprints) : Store :=
  if status = EnrollStatus.Success then
    let cur := (Store.lookup store userId).getD Faceprints.defaultFp
    let cur := { cur with version := fp.version }
    let cur := { cur with numberOfDescriptors := fp.numberOfDescriptors }
    let cur := { cur with avgDescriptor := fp.avgDescriptor }
    let cur := { cur with origDescriptor := fp.avgDescriptor }
    Store.upsert store userId cur
  else store

/-- Output of the opaque vendor oracle
`FaceAuthenticator::MatchFaceprints(scanned, existing, updated)`: the
returned `{success, should_update}` flags plus the final value of the
by-reference `updated` argument. -/
structure MatchOut where
  success : Bool
  shouldUpdate : Bool
  updated : Faceprints
deriving DecidableEq, Repr

/-- The opaque oracle: arguments are (scanned, existing, updated-initial);
`main.cc` always initialises `updated` to the existing entry before the
call. -/
abbrev Oracle := Faceprints → Faceprints → Faceprints → MatchOut

/-- The match-scan loop of `FaceprintsAuthClbk::OnResult`: walk the store in
enumeration order; per entry call the oracle with `updated` initialised to
the existing entry; on the first `success`, overwrite the entry in place
with `updated` when `should_update`, and `break`.  Returns the new store,
the match outcome `some (user_id, updated?)` / `none`, and the trace of
user ids actually passed to the oracle. -/
def authScanGo (oracle : Oracle) (scanned : Faceprints) :
    Store → Store × Option (String × Bool) × List String
  | [] => ([], none, [])
  | (uid, ex) :: rest =>
    let m := oracle scanned ex ex
    if m.success then
      if m.shouldUpdate then ((uid, m.updated) :: rest, some (uid, true), [uid])
      else ((uid, ex) :: rest, some (uid, false), [uid])
    else
      let r := authScanGo oracle scanned rest
      ((uid, ex) :: r.1, r.2.1, uid :: r.2.2)

/-- The copy of the extracted payload into `scanned_faceprint`: `main.cc`
copies all five fields (`version`, `numberOfDescriptors`, `featuresType`,
whole `avgDescriptor`, whole `origDescriptor`). -/
def buildScanned (fp : Faceprints) : Faceprints :=
  { version := fp.version, numberOfDescriptors := fp.numberOfDescriptors,
    featuresType := fp.featuresType,
    origDescriptor := fp.origDescriptor, avgDescriptor := fp.avgDescriptor }

/-- Model of `FaceprintsAuthClbk::OnResult(status, faceprints)`: on a
non-`Success`
status, print and return — the store is untouched and the oracle never runs
(empty trace).  On `Success`, build `scanned_faceprint` from the payload and
run the match scan. -/
def authOnResult (oracle : Oracle) (status : AuthenticateStatus)
    (fp : Faceprints) (store : Store) :
    Store × Option (String × Bool) × List String :=
  if status = AuthenticateStatus.Success then
    authScanGo oracle (buildScanned fp) store
  else (store, none, [])

/-- Result of the spec's `Remove(user_id)` store operation. -/
inductive RemoveStatus where
  | ok
  | keyNotFound
deriving DecidableEq, Repr

/-- Deletion of the entry with the given key (first occurrence; under
`Store.Inv` keys are unique, so this is the entry). -/
def removeGo : Store → String → Store
  | [], _ => []
  | (k, v) :: rest, uid => if k = uid then rest else (k, v) :: removeGo rest uid

/-- Modelled from the spec: the Template Store operation `Remove(user_id)`
(spec section 4.3).  `main.cc` has no per-user removal of the local
faceprint db (only clear-all), so this follows the spec's words: "fails
with `KeyNotFound` if absent; otherwise deletes the entry".  On failure the
store is returned unchanged. -/
def removeUser (store : Store) (uid : String) : Store × RemoveStatus :=
  if (Store.lookup store uid).isSome then (removeGo store uid, RemoveStatus.ok)
  else (store, RemoveStatus.keyNotFound)

/-! Concrete fixtures used to exercise the definitions on closed inputs. -/

/-- Concrete template: version 1, `featuresType` 5. -/
def wFpA : Faceprints :=
  { version := 1, numberOfDescriptors := 1, featuresType := 5,
    origDescriptor := [1, 2], avgDescriptor := [1, 2] }

/-- Concrete template: version 2, `featuresType` 5. -/
def wFpB : Faceprints :=
  { version := 2, numberOfDescriptors := 1, featuresType := 5,
    origDescriptor := [3, 4], avgDescriptor := [3, 4] }

/-- Concrete template: version 3, `featuresType` 5. -/
def wFpC : Faceprints :=
  { version := 3, numberOfDescriptors := 1, featuresType := 5,
    origDescriptor := [5, 6], avgDescriptor := [5, 6] }

/-- Concrete extracted payload with `featuresType` 7. -/
def wScan : Faceprints :=
  { version := 9, numberOfDescriptors := 1, featuresType := 7,
    origDescriptor := [7, 8], avgDescriptor := [7, 8] }

/-- Concrete three-user store in ascending key order. -/
def wStoreABC : Store := [("A", wFpA), ("B", wFpB), ("C", wFpC)]

/-- Concrete one-user store. -/
def wStoreA : Store := [("A", wFpA)]

/-- Concrete deterministic oracle: succeeds exactly on stored entries of
version at least 2, always asks for an update, and the updated template
keeps everything but the average descriptor. -/
def wOracle : Oracle := fun _ ex _ =>
  { success := decide (2 ≤ ex.version), shouldUpdate := true,
    updated := { ex with avgDescriptor := [99, 99] } }

/-! Store lemmas. -/

theorem Store.lookup_upsert_self (s : Store) (k : String) (t : Faceprints) :
    Store.lookup (Store.upsert s k t) k = some t := by
  induction s with
  | nil => simp [Store.upsert, Store.lookup]
  | cons p rest ih =>
    obtain ⟨k', v⟩ := p
    by_cases h1 : keyLt k k'
    · simp [Store.upsert, h1, Store.lookup]
    · by_cases h2 : k = k'
      · subst h2
        have hirr : ¬ keyLt k k := irrefl k
        simp [Store.upsert, h1, hirr, Store.lookup]
      · simp only [Store.upsert, if_neg h1, if_neg h2, Store.lookup]
        rw [if_neg (fun h => h2 h.symm)]
        exact ih

theorem Store.lookup_upsert_ne (s : Store) (k k' : String) (t : Faceprints)
    (h : k' ≠ k) : Store.lookup (Store.upsert s k t) k' = Store.lookup s k' := by
  induction s with
  | nil =>
    simp only [Store.upsert, Store.lookup]
    rw [if_neg (fun hh : k = k' => h hh.symm)]
  | cons p rest ih =>
    obtain ⟨k0, v⟩ := p
    by_cases h1 : keyLt k k0
    · simp only [Store.upsert, if_pos h1, Store.lookup]
      rw [if_neg (fun hh : k = k' => h hh.symm)]
    · by_cases h2 : k = k0
      · simp only [Store.upsert, if_neg h1, if_pos h2, Store.lookup]
        rw [if_neg (fun hh : k = k' => h hh.symm),
          if_neg (fun hh : k0 = k' => h (h2.trans hh).symm)]
      · simp only [Store.upsert, if_neg h1, if_neg h2, Store.lookup]
        by_cases h3 : k0 = k'
        · rw [if_pos h3, if_pos h3]
        · rw [if_neg h3, if_neg h3]
          exact ih

theorem Store.keys_cons (p : String × Faceprints) (rest : Store) :
    Store.keys (p :: rest) = p.1 :: Store.keys rest := rfl

theorem Store.lookup_isSome_iff (s : Store) (k : String) :
    (Store.lookup s k).isSome = true ↔ k ∈ Store.keys s := by
  induction s with
  | nil => simp [Store.lookup, Store.keys]
  | cons p rest ih =>
    obtain ⟨k0, v⟩ := p
    by_cases h : k0 = k
    · simp [Store.lookup, Store.keys_cons, h]
    · simp only [Store.lookup, if_neg h, Store.keys_cons, List.mem_cons]
      rw [ih]
      constructor
      · exact Or.inr
      · rintro (rfl | hm)
        · exact absurd rfl h
        · exact hm

theorem Store.keys_sorted_of_inv (s : Store) (h : Store.Inv s) :
    List.Sorted keyLt (Store.keys s) := by
  have hc : List.Chain' (fun a b : String => keyLt a b) (List.map Prod.fst s) :=
    (List.chain'_map Prod.fst).mpr h
  exact List.chain'_iff_pairwise.mp hc

theorem Store.keys_nodup_of_inv (s : Store) (h : Store.Inv s) :
    (Store.keys s).Nodup :=
  (Store.keys_sorted_of_inv s h).nodup

theorem Store.inv_tail {p : String × Faceprints} {rest : Store}
    (h : Store.Inv (p :: rest)) : Store.Inv rest :=
  List.Chain'.tail h

theorem Store.upsert_head_cases (s : Store) (k : String) (t : Faceprints) :
    ∀ q ∈ (Store.upsert s k t).head?, q.1 = k ∨ ∃ q0 ∈ s.head?, q.1 = q0.1 := by
  cases s with
  | nil => simp [Store.upsert]
  | cons p rest =>
    obtain ⟨k0, v⟩ := p
    by_cases h1 : keyLt k k0
    · simp [Store.upsert, h1]
    · by_cases h2 : k = k0
      · subst h2
        have hirr : ¬ keyLt k k := irrefl k
        simp [Store.upsert, h1, hirr]
      · simp [Store.upsert, h1, h2]

theorem Store.inv_upsert (s : Store) (k : String) (t : Faceprints)
    (h : Store.Inv s) : Store.Inv (Store.upsert s k t) := by
  induction s with
  | nil => simp [Store.upsert, Store.Inv]
  | cons p rest ih =>
    obtain ⟨k0, v⟩ := p
    have hhead := (List.chain'_cons'.mp h).1
    have htail : Store.Inv rest := Store.inv_tail h
    by_cases h1 : keyLt k k0
    · simp only [Store.upsert, if_pos h1]
      refine List.chain'_cons'.mpr ⟨?_, h⟩
      intro q hq
      simp only [List.head?_cons, Option.mem_def, Option.some.injEq] at hq
      subst hq
      exact h1
    · by_cases h2 : k = k0
      · simp only [Store.upsert, if_neg h1, if_pos h2]
        refine List.chain'_cons'.mpr ⟨?_, htail⟩
        intro q hq
        have := hhead q hq
        simpa [h2] using this
      · have h3 : keyLt k0 k := by
          rcases lt_trichotomy k.data k0.data with hlt | heq | hgt
          · exact absurd hlt h1
          · refine absurd ?_ h2
            cases k
            cases k0
            exact congrArg String.mk heq
          · exact hgt
        simp only [Store.upsert, if_neg h1, if_neg h2]
        refine List.chain'_cons'.mpr ⟨?_, ih htail⟩
        intro q hq
        rcases Store.upsert_head_cases rest k t q hq with hk | ⟨q0, hq0, hkq⟩
        · simpa [hk] using h3
        · have := hhead q0 hq0
          simpa [hkq] using this

theorem Store.length_upsert_of_mem (s : Store) (k : String) (t : Faceprints)
    (hinv : Store.Inv s) (h : (Store.lookup s k).isSome = true) :
    (Store.upsert s k t).length = s.length := by
  induction s with
  | nil => simp [Store.lookup] at h
  | cons p rest ih =>
    obtain ⟨k0, v⟩ := p
    by_cases h2 : k = k0
    · have hirr : ¬ keyLt k0 k0 := irrefl k0
      simp [Store.upsert, h2, hirr]
    · have hmem : k ∈ Store.keys ((k0, v) :: rest) :=
        (Store.lookup_isSome_iff _ k).mp h
      have hmem' : k ∈ Store.keys rest := by
        rw [Store.keys_cons] at hmem
        rcases List.mem_cons.mp hmem with hk | hk
        · exact absurd hk h2
        · exact hk
      have h1 : ¬ keyLt k k0 := by
        intro hlt
        have hs := Store.keys_sorted_of_inv _ hinv
        rw [Store.keys_cons] at hs
        have hk0k : keyLt (k0, v).1 k := List.rel_of_sorted_cons hs k hmem'
        exact absurd (Trans.trans hk0k hlt) (irrefl k0)
      simp only [Store.upsert, if_neg h1, if_neg h2, List.length_cons]
      have hrest : (Store.lookup rest k).isSome = true :=
        (Store.lookup_isSome_iff rest k).mpr hmem'
      rw [ih (Store.inv_tail hinv) hrest]

theorem Store.lookup_eq_none_iff (s : Store) (k : String) :
    Store.lookup s k = none ↔ k ∉ Store.keys s := by
  rw [← Store.lookup_isSome_iff]
  cases Store.lookup s k <;> simp

theorem removeGo_lookup_self (s : Store) (k : String)
    (h : (Store.keys s).Nodup) : Store.lookup (removeGo s k) k = none := by
  induction s with
  | nil => simp [removeGo, Store.lookup]
  | cons p rest ih =>
    obtain ⟨k0, v⟩ := p
    have h' : k0 ∉ Store.keys rest ∧ (Store.keys rest).Nodup := by
      rw [Store.keys_cons] at h
      exact List.nodup_cons.mp h
    by_cases h0 : k0 = k
    · simp only [removeGo, if_pos h0]
      rw [Store.lookup_eq_none_iff]
      subst h0
      exact h'.1
    · simp only [removeGo, if_neg h0, Store.lookup, if_neg h0]
      exact ih h'.2

theorem removeGo_lookup_ne (s : Store) (k k' : String) (h : k' ≠ k) :
    Store.lookup (removeGo s k) k' = Store.lookup s k' := by
  induction s with
  | nil => simp [removeGo]
  | cons p rest ih =>
    obtain ⟨k0, v⟩ := p
    by_cases h0 : k0 = k
    · simp only [removeGo, if_pos h0, Store.lookup]
      rw [if_neg (fun hh : k0 = k' => h (hh.symm.trans h0))]
    · simp only [removeGo, if_neg h0, Store.lookup]
      by_cases h1 : k0 = k'
      · rw [if_pos h1, if_pos h1]
      · rw [if_neg h1, if_neg h1]
        exact ih

theorem removeGo_length (s : Store) (k : String)
    (h : (Store.lookup s k).isSome = true) :
    (removeGo s k).length + 1 = s.length := by
  induction s with
  | nil => simp [Store.lookup] at h
  | cons p rest ih =>
    obtain ⟨k0, v⟩ := p
    by_cases h0 : k0 = k
    · simp [removeGo, h0]
    · simp only [Store.lookup, if_neg h0] at h
      simp only [removeGo, if_neg h0, List.length_cons]
      rw [← ih h]

/-! Match-scan lemmas. -/

theorem authScanGo_keys (o : Oracle) (sc : Faceprints) (s : Store) :
    Store.keys (authScanGo o sc s).1 = Store.keys s := by
  induction s with
  | nil => simp [authScanGo]
  | cons p rest ih =>
    obtain ⟨uid, ex⟩ := p
    cases hs : (o sc ex ex).success
    · simp only [authScanGo, hs, Bool.false_eq_true, if_false]
      rw [Store.keys_cons, Store.keys_cons, ih]
    · cases hup : (o sc ex ex).shouldUpdate
      · simp [authScanGo, hs, hup]
      · simp [authScanGo, hs, hup, Store.keys_cons]

theorem authScanGo_first_success (o : Oracle) (sc : Faceprints)
    (pre : Store) (u : String) (fp : Faceprints) (post : Store)
    (hpre : ∀ p ∈ pre, (o sc p.2 p.2).success = false)
    (hu : (o sc fp fp).success = true) :
    authScanGo o sc (pre ++ (u, fp) :: post) =
      (pre ++ (if (o sc fp fp).shouldUpdate then (u, (o sc fp fp).updated)
               else (u, fp)) :: post,
       some (u, (o sc fp fp).shouldUpdate),
       List.map Prod.fst pre ++ [u]) := by
  induction pre with
  | nil =>
    simp only [List.nil_append, List.map_nil]
    cases hup : (o sc fp fp).shouldUpdate
    · simp [authScanGo, hu, hup]
    · simp [authScanGo, hu, hup]
  | cons p pre' ih =>
    obtain ⟨uid, ex⟩ := p
    have hf : (o sc ex ex).success = false :=
      hpre (uid, ex) (List.mem_cons_self _ _)
    have hpre' : ∀ q ∈ pre', (o sc q.2 q.2).success = false :=
      fun q hq => hpre q (List.mem_cons_of_mem _ hq)
    simp only [List.cons_append, authScanGo, hf, Bool.false_eq_true, if_false,
      List.append_eq]
    rw [ih hpre']
    simp

theorem authScanGo_no_success (o : Oracle) (sc : Faceprints) (s : Store)
    (h : ∀ p ∈ s, (o sc p.2 p.2).success = false) :
    authScanGo o sc s = (s, none, Store.keys s) := by
  induction s with
  | nil => simp [authScanGo, Store.keys]
  | cons p rest ih =>
    obtain ⟨uid, ex⟩ := p
    have hf : (o sc ex ex).success = false :=
      h (uid, ex) (List.mem_cons_self _ _)
    have hrest : ∀ q ∈ rest, (o sc q.2 q.2).success = false :=
      fun q hq => h q (List.mem_cons_of_mem _ hq)
    simp only [authScanGo, hf, Bool.false_eq_true, if_false]
    rw [ih hrest, Store.keys_cons]

theorem authScanGo_lookup_orig (o : Oracle) (sc : Faceprints) (s : Store)
    (horig : ∀ e : Faceprints,
      (o sc e e).updated.origDescriptor = e.origDescriptor)
    (k : String) :
    (Store.lookup (authScanGo o sc s).1 k).map Faceprints.origDescriptor =
      (Store.lookup s k).map Faceprints.origDescriptor := by
  induction s with
  | nil => simp [authScanGo]
  | cons p rest ih =>
    obtain ⟨uid, ex⟩ := p
    cases hs : (o sc ex ex).success
    · simp only [authScanGo, hs, Bool.false_eq_true, if_false]
      by_cases hk : uid = k
      · simp [Store.lookup, hk]
      · simp only [Store.lookup, if_neg hk]
        exact ih
    · cases hup : (o sc ex ex).shouldUpdate
      · simp [authScanGo, hs, hup]
      · simp only [authScanGo, hs, hup, if_true]
        by_cases hk : uid = k
        · simp [Store.lookup, hk, horig ex]
        · simp [Store.lookup, hk]

theorem foldl_auth_lookup_orig (o : Oracle)
    (horig : ∀ sc e : Faceprints,
      (o sc e e).updated.origDescriptor = e.origDescriptor)
    (sessions : List (AuthenticateStatus × Faceprints)) (s : Store)
    (k : String) :
    (Store.lookup
        (sessions.foldl (fun st q => (authOnResult o q.1 q.2 st).1) s) k).map
        Faceprints.origDescriptor =
      (Store.lookup s k).map Faceprints.origDescriptor := by
  induction sessions generalizing s with
  | nil => simp
  | cons q rest ih =>
    obtain ⟨st0, fp⟩ := q
    simp only [List.foldl_cons]
    rw [ih]
    by_cases hq : st0 = AuthenticateStatus.Success
    · subst hq
      simp only [authOnResult, if_pos rfl]
      exact authScanGo_lookup_orig o (buildScanned fp) s (fun e => horig _ e) k
    · simp [authOnResult, hq]

/-! Pose-tracker lemmas. -/

theorem posesInit_nodup : posesInit.Nodup := by decide

theorem posesInit_sorted :
    List.Sorted (fun a b : FacePose => a.idx ≤ b.idx) posesInit := by decide

theorem mem_foldl_observe (obs : List FacePose) :
    ∀ (req : List FacePose), req.Nodup → ∀ a : FacePose,
      (a ∈ obs.foldl (fun r p => (onPoseObserved r p).1) req ↔
        a ∈ req ∧ a ∉ obs) := by
  induction obs with
  | nil =>
    intro req _ a
    simp
  | cons o obs' ih =>
    intro req hn a
    simp only [List.foldl_cons]
    have h1 : (onPoseObserved req o).1 = req.erase o := rfl
    rw [h1, ih (req.erase o) (hn.erase o) a,
      List.Nodup.mem_erase_iff hn, List.mem_cons]
    constructor
    · rintro ⟨⟨hne, hmem⟩, hno⟩
      exact ⟨hmem, fun hc => hc.elim hne hno⟩
    · rintro ⟨hmem, hno⟩
      exact ⟨⟨fun hh => hno (Or.inl hh), hmem⟩, fun hh => hno (Or.inr hh)⟩

theorem trackerRun_eq_nil_iff (obs : List FacePose) :
    trackerRun obs = [] ↔
      (FacePose.Center ∈ obs ∧ FacePose.Left ∈ obs ∧ FacePose.Right ∈ obs) := by
  have hmem := mem_foldl_observe obs posesInit posesInit_nodup
  unfold trackerRun
  rw [List.eq_nil_iff_forall_not_mem]
  constructor
  · intro h
    refine ⟨?_, ?_, ?_⟩
    · by_contra hc
      exact h FacePose.Center ((hmem FacePose.Center).mpr ⟨by decide, hc⟩)
    · by_contra hc
      exact h FacePose.Left ((hmem FacePose.Left).mpr ⟨by decide, hc⟩)
    · by_contra hc
      exact h FacePose.Right ((hmem FacePose.Right).mpr ⟨by decide, hc⟩)
  · rintro ⟨hC, hL, hR⟩ a ha
    obtain ⟨hain, hanot⟩ := (hmem a).mp ha
    cases a
    · exact hanot hC
    · exact hanot hL
    · exact hanot hR

theorem Store.lookup_append (pre l : Store) (u : String)
    (h : u ∉ Store.keys pre) :
    Store.lookup (pre ++ l) u = Store.lookup l u := by
  induction pre with
  | nil => simp
  | cons p pre' ih =>
    obtain ⟨k0, v⟩ := p
    rw [Store.keys_cons, List.mem_cons] at h
    push_neg at h
    simp only [List.cons_append, Store.lookup]
    rw [if_neg (fun hh : k0 = u => h.1 hh.symm)]
    exact ih h.2

theorem enroll_lookup_self (store : Store) (uid : String) (P : Faceprints) :
    Store.lookup (enrollOnResult store uid EnrollStatus.Success P) uid =
      some { version := P.version,
             numberOfDescriptors := P.numberOfDescriptors,
             featuresType :=
               ((Store.lookup store uid).getD Faceprints.defaultFp).featuresType,
             origDescriptor := P.avgDescriptor,
             avgDescriptor := P.avgDescriptor } := by
  unfold enrollOnResult
  rw [if_pos rfl]
  exact Store.lookup_upsert_self _ _ _

/-! Claim theorems. -/

/-- C1, counterexample to the claim as stated: enrolling payload `wScan`
(whose `featuresType` is 7) for the already-present user `"A"` does NOT
store a template whose `featuresType` equals the payload's — the enroll
handler in `main.cc` never copies `featuresType`, so the stored value stays
at its prior value 5. -/
theorem enroll_featuresType_not_copied :
    (Store.lookup (enrollOnResult wStoreA "A" EnrollStatus.Success wScan)
        "A").map Faceprints.featuresType ≠ some wScan.featuresType := by
  decide

/-- C1 (amended): on a successful enroll-extraction result the handler
stores, under the given user id, a template copying `version` and
`numberOfDescriptors` from the extracted payload, keeping `featuresType` at
its prior (or default-constructed) value, and seeding BOTH `origDescriptor`
and `avgDescriptor` from the payload's single extracted vector
(`faceprints->avgDescriptor`); every other user id's entry is unchanged. -/
theorem enroll_builds_template (store : Store) (uid : String) (P : Faceprints) :
    Store.lookup (enrollOnResult store uid EnrollStatus.Success P) uid =
      some { version := P.version,
             numberOfDescriptors := P.numberOfDescriptors,
             featuresType :=
               ((Store.lookup store uid).getD Faceprints.defaultFp).featuresType,
             origDescriptor := P.avgDescriptor,
             avgDescriptor := P.avgDescriptor } ∧
    ∀ k, k ≠ uid →
      Store.lookup (enrollOnResult store uid EnrollStatus.Success P) k =
        Store.lookup store k := by
  constructor
  · exact enroll_lookup_self store uid P
  · intro k hk
    unfold enrollOnResult
    rw [if_pos rfl]
    exact Store.lookup_upsert_ne _ _ _ _ hk

/-- Closed instance of the C1 amended theorem: enrolling `wScan` for the
fresh user id `"bob"` over the one-user store. -/
theorem enroll_builds_template_witness :
    Store.lookup (enrollOnResult wStoreA "bob" EnrollStatus.Success wScan)
        "bob" =
      some { version := 9, numberOfDescriptors := 1, featuresType := 0,
             origDescriptor := [7, 8], avgDescriptor := [7, 8] } ∧
    ("A" : String) ≠ "bob" ∧
    Store.lookup (enrollOnResult wStoreA "bob" EnrollStatus.Success wScan)
        "A" = Store.lookup wStoreA "A" := by
  have h := enroll_builds_template wStoreA "bob" wScan
  refine ⟨?_, by decide, h.2 "A" (by decide)⟩
  rw [h.1]
  decide

/-- C4: every template created by a successful enrollment extraction has,
immediately after creation, `avgDescriptor` equal to `origDescriptor`
bit-for-bit: both are seeded from the payload's single extracted vector. -/
theorem enroll_avg_eq_orig (store : Store) (uid : String) (P t : Faceprints)
    (h : Store.lookup (enrollOnResult store uid EnrollStatus.Success P) uid =
      some t) :
    t.avgDescriptor = t.origDescriptor := by
  rw [enroll_lookup_self store uid P] at h
  cases h
  rfl

/-- Closed instance of the C4 theorem at a concrete enrollment. -/
theorem enroll_avg_eq_orig_witness :
    Store.lookup (enrollOnResult wStoreA "bob" EnrollStatus.Success wScan)
        "bob" =
      some { version := 9, numberOfDescriptors := 1, featuresType := 0,
             origDescriptor := [7, 8], avgDescriptor := [7, 8] } ∧
    Faceprints.avgDescriptor
        { version := 9, numberOfDescriptors := 1, featuresType := 0,
          origDescriptor := [7, 8], avgDescriptor := [7, 8] } =
      Faceprints.origDescriptor
        { version := 9, numberOfDescriptors := 1, featuresType := 0,
          origDescriptor := [7, 8], avgDescriptor := [7, 8] } :=
  ⟨by decide, enroll_avg_eq_orig wStoreA "bob" wScan _ (by decide)⟩

/-- C7: a non-`Success` terminal status mutates nothing: the enroll handler
leaves the store untouched, and the auth handler leaves the store
untouched, reports no match outcome, and never invokes the oracle (empty
trace). -/
theorem non_success_no_mutation (store : Store) (uid : String)
    (es : EnrollStatus) (as0 : AuthenticateStatus) (P Q : Faceprints)
    (o : Oracle) (he : es ≠ EnrollStatus.Success)
    (ha : as0 ≠ AuthenticateStatus.Success) :
    enrollOnResult store uid es P = store ∧
    authOnResult o as0 Q store = (store, none, []) := by
  constructor
  · unfold enrollOnResult
    rw [if_neg he]
  · unfold authOnResult
    rw [if_neg ha]

/-- Closed instance of the C7 theorem at concrete failure statuses. -/
theorem non_success_no_mutation_witness :
    EnrollStatus.CameraStarted ≠ EnrollStatus.Success ∧
    AuthenticateStatus.Forbidden ≠ AuthenticateStatus.Success ∧
    (enrollOnResult wStoreA "A" EnrollStatus.CameraStarted wScan = wStoreA ∧
     authOnResult wOracle AuthenticateStatus.Forbidden wScan wStoreA =
       (wStoreA, none, [])) :=
  ⟨by decide, by decide,
   non_success_no_mutation wStoreA "A" EnrollStatus.CameraStarted
     AuthenticateStatus.Forbidden wScan wScan wOracle (by decide) (by decide)⟩

/-- C5: when the oracle reports success for no stored entry, a successful
auth extraction's match scan reports no match (`NoMatchFound`), walks the
entire store (trace = all keys), and leaves the store unmodified. -/
theorem auth_no_match (o : Oracle) (fp : Faceprints) (s : Store)
    (hall : ∀ p ∈ s, (o (buildScanned fp) p.2 p.2).success = false) :
    authOnResult o AuthenticateStatus.Success fp s = (s, none, Store.keys s) := by
  unfold authOnResult
  rw [if_pos rfl]
  exact authScanGo_no_success o (buildScanned fp) s hall

/-- Closed instance of the C5 theorem: `wOracle` rejects the only entry of
`wStoreA` (version 1 < 2), so the scan reports no match and the store is
unchanged. -/
theorem auth_no_match_witness :
    (∀ p ∈ wStoreA, (wOracle (buildScanned wScan) p.2 p.2).success = false) ∧
    authOnResult wOracle AuthenticateStatus.Success wScan wStoreA =
      (wStoreA, none, Store.keys wStoreA) :=
  ⟨by decide, auth_no_match wOracle wScan wStoreA (by decide)⟩

/-- C10: clearing the store then listing the users yields the empty
sequence: `Clear()` empties unconditionally. -/
theorem clear_then_list_empty (s : Store) :
    Store.keys (clearUsers s) = [] := rfl

/-- C2: the match scan is first-match, not best-match: with every entry
before (u, fp) rejected by the oracle and (u, fp) accepted, the scan passes
exactly the prefix keys plus u to the oracle (in enumeration order),
reports the match for u, and no entry after the first success is ever
passed to the oracle — even when the oracle would also accept it. -/
theorem auth_scan_first_match (o : Oracle) (sc : Faceprints)
    (pre : Store) (u : String) (fp : Faceprints) (post : Store)
    (hpre : ∀ p ∈ pre, (o sc p.2 p.2).success = false)
    (hu : (o sc fp fp).success = true)
    (hkeys : (Store.keys (pre ++ (u, fp) :: post)).Nodup) :
    (authScanGo o sc (pre ++ (u, fp) :: post)).2.2 = Store.keys pre ++ [u] ∧
    (authScanGo o sc (pre ++ (u, fp) :: post)).2.1 =
      some (u, (o sc fp fp).shouldUpdate) ∧
    ∀ k ∈ Store.keys post, k ∉ (authScanGo o sc (pre ++ (u, fp) :: post)).2.2 := by
  have hmain := authScanGo_first_success o sc pre u fp post hpre hu
  have hkeys' : (Store.keys pre ++ u :: Store.keys post).Nodup := by
    have hexp : Store.keys (pre ++ (u, fp) :: post)
        = Store.keys pre ++ u :: Store.keys post := by
      simp [Store.keys]
    rwa [hexp] at hkeys
  rcases List.nodup_append.mp hkeys' with ⟨h1, h2, hdisj⟩
  have htr : (authScanGo o sc (pre ++ (u, fp) :: post)).2.2 =
      Store.keys pre ++ [u] := by
    rw [hmain]
    rfl
  refine ⟨htr, ?_, ?_⟩
  · rw [hmain]
  · intro k hk
    rw [htr]
    intro hc
    rcases List.mem_append.mp hc with hka | hkb
    · exact hdisj hka (List.mem_cons_of_mem u hk)
    · have hku : k = u := by simpa using hkb
      subst hku
      exact (List.nodup_cons.mp h2).1 hk

/-- Closed instance of the C2 theorem: over the three-user store the oracle
accepts both "B" and "C"; the scan evaluates only "A" and "B", reports the
match for "B", and never passes "C" to the oracle. -/
theorem auth_scan_first_match_witness :
    ((∀ p ∈ ([("A", wFpA)] : Store), (wOracle wScan p.2 p.2).success = false) ∧
     (wOracle wScan wFpB wFpB).success = true ∧
     (wOracle wScan wFpC wFpC).success = true ∧
     (Store.keys ([("A", wFpA)] ++ ("B", wFpB) :: [("C", wFpC)])).Nodup) ∧
    ((authScanGo wOracle wScan
        ([("A", wFpA)] ++ ("B", wFpB) :: [("C", wFpC)])).2.2 =
      Store.keys [("A", wFpA)] ++ ["B"] ∧
     (authScanGo wOracle wScan
        ([("A", wFpA)] ++ ("B", wFpB) :: [("C", wFpC)])).2.1 =
      some ("B", (wOracle wScan wFpB wFpB).shouldUpdate) ∧
     ∀ k ∈ Store.keys [("C", wFpC)],
       k ∉ (authScanGo wOracle wScan
         ([("A", wFpA)] ++ ("B", wFpB) :: [("C", wFpC)])).2.2) :=
  ⟨⟨by decide, by decide, by decide, by decide⟩,
   auth_scan_first_match wOracle wScan [("A", wFpA)] "B" wFpB [("C", wFpC)]
     (by decide) (by decide) (by decide)⟩

/-- C3: when the oracle accepts (u, fp) with should-update set, every
earlier entry is rejected, and the oracle's updated template preserves
`origDescriptor`, the store entry for u after the scan is exactly the
oracle's updated template — it carries the updated `avgDescriptor` while
its `origDescriptor` equals the pre-scan one — and across any sequence of
authentication sessions the `origDescriptor` of every stored entry is
invariant. -/
theorem auth_update_preserves_orig (o : Oracle) (sc : Faceprints)
    (pre : Store) (u : String) (fp : Faceprints) (post : Store)
    (horig : ∀ scanned e : Faceprints,
      (o scanned e e).updated.origDescriptor = e.origDescriptor)
    (hpre : ∀ p ∈ pre, (o sc p.2 p.2).success = false)
    (hu : (o sc fp fp).success = true)
    (hupd : (o sc fp fp).shouldUpdate = true)
    (hnotin : u ∉ Store.keys pre) :
    Store.lookup (authScanGo o sc (pre ++ (u, fp) :: post)).1 u =
      some (o sc fp fp).updated ∧
    (o sc fp fp).updated.origDescriptor = fp.origDescriptor ∧
    (∀ sessions : List (AuthenticateStatus × Faceprints), ∀ s : Store,
      ∀ k : String,
      (Store.lookup
          (sessions.foldl (fun st q => (authOnResult o q.1 q.2 st).1) s)
          k).map Faceprints.origDescriptor =
        (Store.lookup s k).map Faceprints.origDescriptor) := by
  have hmain := authScanGo_first_success o sc pre u fp post hpre hu
  have h1 : (authScanGo o sc (pre ++ (u, fp) :: post)).1 =
      pre ++ (u, (o sc fp fp).updated) :: post := by
    rw [hmain]
    simp [hupd]
  refine ⟨?_, horig sc fp,
    fun sessions s k => foldl_auth_lookup_orig o horig sessions s k⟩
  rw [h1, Store.lookup_append pre _ u hnotin]
  simp [Store.lookup]

/-- Closed instance of the C3 theorem: the oracle updates "B"'s entry; the
stored template afterwards is the updated one and its original descriptor
is unchanged. -/
theorem auth_update_preserves_orig_witness :
    ((∀ p ∈ ([("A", wFpA)] : Store), (wOracle wScan p.2 p.2).success = false) ∧
     (wOracle wScan wFpB wFpB).success = true ∧
     (wOracle wScan wFpB wFpB).shouldUpdate = true ∧
     "B" ∉ Store.keys [("A", wFpA)]) ∧
    (Store.lookup (authScanGo wOracle wScan
        ([("A", wFpA)] ++ ("B", wFpB) :: [("C", wFpC)])).1 "B" =
      some (wOracle wScan wFpB wFpB).updated ∧
     (wOracle wScan wFpB wFpB).updated.origDescriptor =
      wFpB.origDescriptor ∧
     (∀ sessions : List (AuthenticateStatus × Faceprints), ∀ s : Store,
       ∀ k : String,
       (Store.lookup
           (sessions.foldl (fun st q => (authOnResult wOracle q.1 q.2 st).1) s)
           k).map Faceprints.origDescriptor =
         (Store.lookup s k).map Faceprints.origDescriptor)) :=
  ⟨⟨by decide, by decide, by decide, by decide⟩,
   auth_update_preserves_orig wOracle wScan [("A", wFpA)] "B" wFpB
     [("C", wFpC)] (fun _ e => rfl) (by decide) (by decide) (by decide)
     (by decide)⟩

/-- C6: the pose tracker starts from required = {Center, Left, Right};
observing a pose removes it if present and is a size no-op when it is
already satisfied; the required set shrinks monotonically and reaches empty
exactly when all three poses have been observed, in any order; while
non-empty the emitted guidance names the least remaining pose in the
canonical order Center, Left, Right; once empty, no guidance is emitted. -/
theorem pose_tracker_spec (req : List FacePose) (pose : FacePose)
    (hreq : req.Sublist posesInit) :
    (pose ∉ req → (onPoseObserved req pose).1 = req) ∧
    (pose ∈ req → (onPoseObserved req pose).1.length + 1 = req.length) ∧
    pose ∉ (onPoseObserved req pose).1 ∧
    (onPoseObserved req pose).1.Sublist req ∧
    ((onPoseObserved req pose).2 = none ↔ (onPoseObserved req pose).1 = []) ∧
    (∀ g, (onPoseObserved req pose).2 = some g →
      g ∈ (onPoseObserved req pose).1 ∧
      ∀ q ∈ (onPoseObserved req pose).1, FacePose.idx g ≤ FacePose.idx q) ∧
    (∀ obs : List FacePose, trackerRun obs = [] ↔
      (FacePose.Center ∈ obs ∧ FacePose.Left ∈ obs ∧ FacePose.Right ∈ obs)) := by
  have hnod : req.Nodup := posesInit_nodup.sublist hreq
  have hsorted : List.Sorted (fun a b : FacePose => a.idx ≤ b.idx) req :=
    posesInit_sorted.sublist hreq
  have hr1 : (onPoseObserved req pose).1 = req.erase pose := rfl
  have hr2 : (onPoseObserved req pose).2 = (req.erase pose).head? := rfl
  refine ⟨?_, ?_, ?_, ?_, ?_, ?_, trackerRun_eq_nil_iff⟩
  · intro h
    rw [hr1, List.erase_of_not_mem h]
  · intro h
    rw [hr1]
    exact List.length_erase_add_one h
  · rw [hr1]
    intro hc
    exact ((List.Nodup.mem_erase_iff hnod).mp hc).1 rfl
  · rw [hr1]
    exact List.erase_sublist pose req
  · rw [hr1, hr2]
    exact List.head?_eq_none_iff
  · intro g hg
    rw [hr2] at hg
    rw [hr1]
    have hsor : List.Sorted (fun a b : FacePose => a.idx ≤ b.idx)
        (req.erase pose) :=
      hsorted.sublist (List.erase_sublist pose req)
    cases hhe : req.erase pose with
    | nil =>
      rw [hhe] at hg
      simp at hg
    | cons x xs =>
      rw [hhe] at hg hsor
      simp only [List.head?_cons, Option.some.injEq] at hg
      subst hg
      refine ⟨List.mem_cons_self x xs, ?_⟩
      intro q hq
      rcases List.mem_cons.mp hq with rfl | hq'
      · exact le_refl _
      · exact List.rel_of_sorted_cons hsor q hq'

/-- Closed instance of the C6 theorem at the initial required set with the
Left pose observed first. -/
theorem pose_tracker_spec_witness :
    posesInit.Sublist posesInit ∧
    ((FacePose.Left ∉ posesInit →
        (onPoseObserved posesInit FacePose.Left).1 = posesInit) ∧
     (FacePose.Left ∈ posesInit →
        (onPoseObserved posesInit FacePose.Left).1.length + 1 =
          posesInit.length) ∧
     FacePose.Left ∉ (onPoseObserved posesInit FacePose.Left).1 ∧
     (onPoseObserved posesInit FacePose.Left).1.Sublist posesInit ∧
     ((onPoseObserved posesInit FacePose.Left).2 = none ↔
        (onPoseObserved posesInit FacePose.Left).1 = []) ∧
     (∀ g, (onPoseObserved posesInit FacePose.Left).2 = some g →
        g ∈ (onPoseObserved posesInit FacePose.Left).1 ∧
        ∀ q ∈ (onPoseObserved posesInit FacePose.Left).1,
          FacePose.idx g ≤ FacePose.idx q) ∧
     (∀ obs : List FacePose, trackerRun obs = [] ↔
        (FacePose.Center ∈ obs ∧ FacePose.Left ∈ obs ∧
          FacePose.Right ∈ obs))) :=
  ⟨List.Sublist.refl posesInit,
   pose_tracker_spec posesInit FacePose.Left (List.Sublist.refl posesInit)⟩

/-- C8: the spec-modelled `Remove(user_id)` fails with `KeyNotFound` and
leaves the store unchanged when the user id is absent, and otherwise
succeeds and deletes exactly that entry: the removed key no longer resolves,
every other key resolves as before, and the size drops by one. -/
theorem remove_user_spec (s : Store) (uid : String) (hinv : Store.Inv s) :
    (Store.lookup s uid = none →
      removeUser s uid = (s, RemoveStatus.keyNotFound)) ∧
    ((Store.lookup s uid).isSome = true →
      (removeUser s uid).2 = RemoveStatus.ok ∧
      Store.lookup (removeUser s uid).1 uid = none ∧
      (∀ k, k ≠ uid →
        Store.lookup (removeUser s uid).1 k = Store.lookup s k) ∧
      (removeUser s uid).1.length + 1 = s.length) := by
  constructor
  · intro h
    unfold removeUser
    rw [h]
    simp
  · intro h
    unfold removeUser
    rw [if_pos h]
    exact ⟨rfl, removeGo_lookup_self s uid (Store.keys_nodup_of_inv s hinv),
      fun k hk => removeGo_lookup_ne s uid k hk, removeGo_length s uid h⟩

/-- Closed instance of the C8 theorem removing the present user "A" from
the one-user store. -/
theorem remove_user_spec_witness :
    Store.Inv wStoreA ∧
    ((Store.lookup wStoreA "A" = none →
        removeUser wStoreA "A" = (wStoreA, RemoveStatus.keyNotFound)) ∧
     ((Store.lookup wStoreA "A").isSome = true →
        (removeUser wStoreA "A").2 = RemoveStatus.ok ∧
        Store.lookup (removeUser wStoreA "A").1 "A" = none ∧
        (∀ k, k ≠ "A" →
          Store.lookup (removeUser wStoreA "A").1 k = Store.lookup wStoreA k) ∧
        (removeUser wStoreA "A").1.length + 1 = wStoreA.length)) :=
  ⟨by decide, remove_user_spec wStoreA "A" (by decide)⟩

/-- C9: under the std::map representation invariant the enumerated keys are
sorted in ascending lexicographic order (keyLt is lexicographic order on
the character sequences) and are unique; upsert preserves the invariant;
upserting an existing user id never changes the store's size; and the match
scan preserves the key sequence, since it rewrites at most one entry's
value in place. -/
theorem store_enumeration_spec (s : Store) (k : String) (t : Faceprints)
    (o : Oracle) (sc : Faceprints) (hinv : Store.Inv s) :
    List.Sorted keyLt (Store.keys s) ∧
    (∀ a b : String, keyLt a b ↔ List.Lex (· < ·) a.data b.data) ∧
    (Store.keys s).Nodup ∧
    Store.Inv (Store.upsert s k t) ∧
    ((Store.lookup s k).isSome = true →
      (Store.upsert s k t).length = s.length) ∧
    Store.keys (authScanGo o sc s).1 = Store.keys s :=
  ⟨Store.keys_sorted_of_inv s hinv, fun _ _ => Iff.rfl,
   Store.keys_nodup_of_inv s hinv, Store.inv_upsert s k t hinv,
   fun h => Store.length_upsert_of_mem s k t hinv h, authScanGo_keys o sc s⟩

/-- Closed instance of the C9 theorem on the three-user store, upserting
the existing user "B". -/
theorem store_enumeration_spec_witness :
    Store.Inv wStoreABC ∧
    (List.Sorted keyLt (Store.keys wStoreABC) ∧
     (∀ a b : String, keyLt a b ↔ List.Lex (· < ·) a.data b.data) ∧
     (Store.keys wStoreABC).Nodup ∧
     Store.Inv (Store.upsert wStoreABC "B" wScan) ∧
     ((Store.lookup wStoreABC "B").isSome = true →
       (Store.upsert wStoreABC "B" wScan).length = wStoreABC.length) ∧
     Store.keys (authScanGo wOracle wScan wStoreABC).1 =
       Store.keys wStoreABC) :=
  ⟨by decide, store_enumeration_spec wStoreABC "B" wScan wOracle wScan
    (by decide)⟩

end RsidCli
